import Mathlib

/-!
Verification model of `gcpy/obspack_fill.py` (`make_ObsPack_Input_netcdfs`).

The Python routine builds, for a stationary observation site and a time
window, one ObsPack input dataset per calendar day: it parses the window
bounds with `datetime.strptime('%Y%m%d %H:%M:%S')`, partitions the window
into day segments (lines 73-87), expands each segment into sampled instants
with `pd.date_range` at the requested frequency (lines 96-97), decomposes
each instant into integer calendar components (lines 103-111), builds the
200-character observation id strings (lines 116-131), assembles the six
parallel variables of the dataset (lines 140-200) and derives the output
file name (lines 202-203).

Modelling conventions used throughout:
* instants are exact integers: seconds since 0001-01-01 00:00:00 of the
  proleptic Gregorian calendar (pandas stores datetime64 values as exact
  integer ticks; the narrower datetime64[ns] representable range is not
  modelled);
* `lat`, `lon`, `alt` are carried as exact rationals (`np.full(..,
  dtype=np.float32)` duplicates the scalar; the float32 rounding of the
  stored constant is representation-level and not modelled);
* the netcdf writer is modelled by returning the (filename, dataset)
  pairs that would be written, in order;
* Python exceptions are modelled with an error sum type: `valueError`
  covers `strptime`/`pd.date_range` ValueErrors, `indexError` covers the
  failing last-element access on an empty pandas series.
-/

set_option maxRecDepth 10000
set_option maxHeartbeats 1000000

/-! ### Gregorian calendar (model of the external datetime/pandas calendar) -/

/-- Gregorian leap-year rule. -/
def isLeap (y : Nat) : Bool := (y % 4 == 0 && y % 100 != 0) || (y % 400 == 0)

/-- Number of days in year `y`. -/
def yearDays (y : Nat) : Nat := if isLeap y then 366 else 365

/-- Number of days of month `m` in year `y`. -/
def daysInMonth (y m : Nat) : Nat :=
  if m = 2 then (if isLeap y then 29 else 28)
  else if m = 4 ∨ m = 6 ∨ m = 9 ∨ m = 11 then 30 else 31

/-- Days from the start of a 400-year era to the start of its year offset `r`
(`r ≤ 399`). -/
def eraYearDays : Nat → Nat
  | 0 => 0
  | (r+1) => eraYearDays r + yearDays (r+1)

/-- Days from 0001-01-01 to the first day of year `y` (for `y ≥ 1`),
computed era-blockwise. -/
def daysBeforeYear (y : Nat) : Nat := ((y-1)/400) * 146097 + eraYearDays ((y-1) % 400)

/-- Days from `y`-01-01 to the first day of month `m` in year `y`
(for `1 ≤ m ≤ 12`). -/
def daysBeforeMonth (y : Nat) : Nat → Nat
  | 0 => 0
  | 1 => 0
  | (m+2) => daysBeforeMonth y (m+1) + daysInMonth y (m+1)

/-- Day count (days since 0001-01-01) of the civil date `(y, m, d)`. -/
def daysFromCivil (y m d : Nat) : Nat := daysBeforeYear y + daysBeforeMonth y m + (d - 1)

/-- Strip whole years off a day remainder, starting at year `y`. -/
def yearFromDays : Nat → Nat → Nat → Nat × Nat
  | 0, y, rem => (y, rem)
  | (fuel+1), y, rem =>
      if yearDays y ≤ rem then yearFromDays fuel (y+1) (rem - yearDays y) else (y, rem)

/-- Strip whole months off a day-of-year remainder, starting at month `m`. -/
def monthFromDays (y : Nat) : Nat → Nat → Nat → Nat × Nat
  | 0, m, rem => (m, rem)
  | (fuel+1), m, rem =>
      if daysInMonth y m ≤ rem then monthFromDays y fuel (m+1) (rem - daysInMonth y m) else (m, rem)

/-- Civil date `(y, m, d)` of day number `z` (days since 0001-01-01). -/
def civilFromDays (z : Nat) : Nat × Nat × Nat :=
  let yr := yearFromDays 401 (400 * (z / 146097) + 1) (z % 146097)
  let mr := monthFromDays yr.1 11 1 yr.2
  (yr.1, mr.1, mr.2 + 1)

theorem isLeap_mul400_add (q s : Nat) : isLeap (400 * q + s) = isLeap s := by
  have h4 : (400 * q + s) % 4 = s % 4 := by omega
  have h100 : (400 * q + s) % 100 = s % 100 := by omega
  have h400 : (400 * q + s) % 400 = s % 400 := by omega
  simp [isLeap, h4, h100, h400]

theorem eraYearDays_399 : eraYearDays 399 + 366 = 146097 := by decide

theorem daysBeforeYear_succ (y : Nat) (hy : 1 ≤ y) :
    daysBeforeYear (y+1) = daysBeforeYear y + yearDays y := by
  obtain ⟨k, rfl⟩ : ∃ k, y = k + 1 := ⟨y - 1, by omega⟩
  rcases Nat.lt_or_ge (k % 400) 399 with hr | hr
  · have h1 : (k + 1) / 400 = k / 400 := by omega
    have h2 : (k + 1) % 400 = k % 400 + 1 := by omega
    simp only [daysBeforeYear, Nat.add_sub_cancel, h1, h2, eraYearDays]
    have hyd : yearDays (k + 1) = yearDays (k % 400 + 1) := by
      simp only [yearDays]
      rw [show k + 1 = 400 * (k / 400) + (k % 400 + 1) from by omega, isLeap_mul400_add]
    omega
  · have hr' : k % 400 = 399 := by omega
    have h1 : (k + 1) / 400 = k / 400 + 1 := by omega
    have h2 : (k + 1) % 400 = 0 := by omega
    have hleap : isLeap (k + 1) = true := by
      simp [isLeap, h2]
    simp only [daysBeforeYear, Nat.add_sub_cancel, h1, h2, hr', yearDays, hleap, if_true]
    have h0 : eraYearDays 0 = 0 := rfl
    have := eraYearDays_399
    omega

theorem daysBeforeMonth_13 (y : Nat) : daysBeforeMonth y 13 = yearDays y := by
  cases h : isLeap y <;>
    simp [daysBeforeMonth, daysInMonth, yearDays, h]

theorem yearDays_ge (y : Nat) : 365 ≤ yearDays y := by
  simp only [yearDays]; split <;> omega

theorem yearFromDays_correct : ∀ fuel y rem, 1 ≤ y → rem ≤ 365 * fuel →
    daysBeforeYear (yearFromDays fuel y rem).1 + (yearFromDays fuel y rem).2
        = daysBeforeYear y + rem ∧
      (yearFromDays fuel y rem).2 < yearDays (yearFromDays fuel y rem).1 ∧
      1 ≤ (yearFromDays fuel y rem).1 := by
  intro fuel
  induction fuel with
  | zero =>
      intro y rem hy hrem
      refine ⟨rfl, ?_, hy⟩
      show rem < yearDays y
      have := yearDays_ge y
      omega
  | succ n ih =>
      intro y rem hy hrem
      by_cases hle : yearDays y ≤ rem
      · have hstep : yearFromDays (n+1) y rem = yearFromDays n (y+1) (rem - yearDays y) := by
          simp only [yearFromDays, if_pos hle]
        rw [hstep]
        have hyd := yearDays_ge y
        obtain ⟨e1, e2, e3⟩ := ih (y+1) (rem - yearDays y) (by omega) (by omega)
        refine ⟨?_, e2, e3⟩
        rw [daysBeforeYear_succ y hy] at e1
        omega
      · have hstep : yearFromDays (n+1) y rem = (y, rem) := by
          simp only [yearFromDays, if_neg hle]
        rw [hstep]
        refine ⟨rfl, ?_, hy⟩
        show rem < yearDays y
        omega

theorem daysBeforeMonth_succ (y m : Nat) (hm : 1 ≤ m) :
    daysBeforeMonth y (m+1) = daysBeforeMonth y m + daysInMonth y m := by
  match m, hm with
  | (k+1), _ => rfl

theorem monthFromDays_correct (y : Nat) : ∀ fuel m rem, 1 ≤ m → m ≤ 12 →
    daysBeforeMonth y m + rem < yearDays y → 12 - m ≤ fuel →
    daysBeforeMonth y (monthFromDays y fuel m rem).1 + (monthFromDays y fuel m rem).2
        = daysBeforeMonth y m + rem ∧
      (monthFromDays y fuel m rem).2 < daysInMonth y (monthFromDays y fuel m rem).1 ∧
      1 ≤ (monthFromDays y fuel m rem).1 ∧ (monthFromDays y fuel m rem).1 ≤ 12 := by
  intro fuel
  induction fuel with
  | zero =>
      intro m rem h1 h12 hlt hfuel
      have hm12 : m = 12 := by omega
      subst hm12
      refine ⟨rfl, ?_, ?_, ?_⟩
      · show rem < daysInMonth y 12
        have hsum : daysBeforeMonth y 13 = yearDays y := daysBeforeMonth_13 y
        have hstep : daysBeforeMonth y 13 = daysBeforeMonth y 12 + daysInMonth y 12 := rfl
        omega
      · show (1:Nat) ≤ 12
        omega
      · show (12:Nat) ≤ 12
        omega
  | succ n ih =>
      intro m rem h1 h12 hlt hfuel
      by_cases hle : daysInMonth y m ≤ rem
      · have hm12 : m < 12 := by
          by_contra hge
          have hm12a : m = 12 := by omega
          subst hm12a
          have hsum : daysBeforeMonth y 13 = yearDays y := daysBeforeMonth_13 y
          have hstep : daysBeforeMonth y 13 = daysBeforeMonth y 12 + daysInMonth y 12 := rfl
          omega
        have hstep : monthFromDays y (n+1) m rem
            = monthFromDays y n (m+1) (rem - daysInMonth y m) := by
          simp only [monthFromDays, if_pos hle]
        rw [hstep]
        have hmb := daysBeforeMonth_succ y m h1
        obtain ⟨e1, e2, e3, e4⟩ := ih (m+1) (rem - daysInMonth y m) (by omega) (by omega)
          (by omega) (by omega)
        exact ⟨by omega, e2, e3, e4⟩
      · have hstep : monthFromDays y (n+1) m rem = (m, rem) := by
          simp only [monthFromDays, if_neg hle]
        rw [hstep]
        refine ⟨rfl, ?_, h1, h12⟩
        show rem < daysInMonth y m
        omega

/-- Core calendar round trip: recomposing the civil date of any day number
gives back that day number. -/
theorem daysFromCivil_civilFromDays (z : Nat) :
    daysFromCivil (civilFromDays z).1 (civilFromDays z).2.1 (civilFromDays z).2.2 = z := by
  obtain ⟨y1, y2, y3⟩ := yearFromDays_correct 401 (400 * (z / 146097) + 1) (z % 146097)
    (by omega) (by omega)
  have hbase : daysBeforeYear (400 * (z / 146097) + 1) = (z / 146097) * 146097 := by
    simp only [daysBeforeYear, Nat.add_sub_cancel]
    have h1 : 400 * (z / 146097) / 400 = z / 146097 := by omega
    have h2 : 400 * (z / 146097) % 400 = 0 := by omega
    have h0 : eraYearDays 0 = 0 := rfl
    rw [h1, h2, h0]
    omega
  obtain ⟨m1, m2, m3, m4⟩ := monthFromDays_correct
    (yearFromDays 401 (400 * (z / 146097) + 1) (z % 146097)).1 11 1
    (yearFromDays 401 (400 * (z / 146097) + 1) (z % 146097)).2
    (by omega) (by omega)
    (by
      have h0 : daysBeforeMonth (yearFromDays 401 (400 * (z / 146097) + 1) (z % 146097)).1 1 = 0 := rfl
      omega)
    (by omega)
  have hm1 : daysBeforeMonth (yearFromDays 401 (400 * (z / 146097) + 1) (z % 146097)).1 1 = 0 := rfl
  show daysBeforeYear (yearFromDays 401 (400 * (z / 146097) + 1) (z % 146097)).1
      + daysBeforeMonth (yearFromDays 401 (400 * (z / 146097) + 1) (z % 146097)).1
          (monthFromDays (yearFromDays 401 (400 * (z / 146097) + 1) (z % 146097)).1 11 1
            (yearFromDays 401 (400 * (z / 146097) + 1) (z % 146097)).2).1
      + ((monthFromDays (yearFromDays 401 (400 * (z / 146097) + 1) (z % 146097)).1 11 1
            (yearFromDays 401 (400 * (z / 146097) + 1) (z % 146097)).2).2 + 1 - 1) = z
  omega

/-! ### Time components (model of `strftime` decomposition, lines 103-108) -/

/-- The six integer calendar components `[year, month, day, hour, minute,
second]` of an instant `t` (seconds since 0001-01-01 00:00:00), exactly as
`strftime` with `%Y %m %d %H %M %S` extracts them on each sampled datetime. -/
def toCompsRow (t : Nat) : List Nat :=
  [(civilFromDays (t / 86400)).1, (civilFromDays (t / 86400)).2.1,
   (civilFromDays (t / 86400)).2.2,
   t % 86400 / 3600, t % 86400 % 3600 / 60, t % 86400 % 3600 % 60]

/-- Recompose an instant from a `[year, month, day, hour, minute, second]`
component row (the reconstruction direction of the round-trip property). -/
def recomposeRow : List Nat → Nat
  | [y, m, d, hh, mi, ss] => 86400 * daysFromCivil y m d + 3600 * hh + 60 * mi + ss
  | _ => 0

theorem recomposeRow_toCompsRow (t : Nat) : recomposeRow (toCompsRow t) = t := by
  show 86400 * daysFromCivil (civilFromDays (t / 86400)).1 (civilFromDays (t / 86400)).2.1
        (civilFromDays (t / 86400)).2.2
      + 3600 * (t % 86400 / 3600) + 60 * (t % 86400 % 3600 / 60) + t % 86400 % 3600 % 60 = t
  rw [daysFromCivil_civilFromDays]
  omega

/-! ### Decimal strings (model of Python `str` on integers) -/

/-- The character of a decimal digit. -/
def digitChar (d : Nat) : Char :=
  match d with
  | 0 => '0' | 1 => '1' | 2 => '2' | 3 => '3' | 4 => '4'
  | 5 => '5' | 6 => '6' | 7 => '7' | 8 => '8' | _ => '9'

/-- Little-endian decimal digits of `n`, with explicit fuel (`[]` for 0). -/
def decDigitsAux : Nat → Nat → List Nat
  | _, 0 => []
  | 0, _ => []
  | (fuel+1), n => n % 10 :: decDigitsAux fuel (n / 10)

def decDigits (n : Nat) : List Nat := decDigitsAux n n

/-- Value of a little-endian digit list. -/
def ofDigitsRev : List Nat → Nat
  | [] => 0
  | d :: ds => d + 10 * ofDigitsRev ds

/-- Decimal string of a natural number, as Python `str` renders it. -/
def natToStr (n : Nat) : String :=
  if n = 0 then "0" else String.mk ((decDigits n).reverse.map digitChar)

/-- Decimal string of an integer, as Python `str` renders it. -/
def intToStr (i : Int) : String :=
  if i < 0 then "-" ++ natToStr (-i).toNat else natToStr i.toNat

theorem decDigitsAux_ofDigits : ∀ fuel n, n ≤ fuel → ofDigitsRev (decDigitsAux fuel n) = n := by
  intro fuel
  induction fuel with
  | zero =>
      intro n hn
      have : n = 0 := by omega
      subst this
      rfl
  | succ k ih =>
      intro n hn
      match n with
      | 0 => rfl
      | (m+1) =>
          have hstep : decDigitsAux (k+1) (m+1) = (m+1) % 10 :: decDigitsAux k ((m+1) / 10) := rfl
          rw [hstep]
          show (m+1) % 10 + 10 * ofDigitsRev (decDigitsAux k ((m+1) / 10)) = m + 1
          rw [ih ((m+1) / 10) (by omega)]
          omega

theorem decDigitsAux_lt10 : ∀ fuel n d, d ∈ decDigitsAux fuel n → d < 10 := by
  intro fuel
  induction fuel with
  | zero =>
      intro n d hd
      match n with
      | 0 => simp [decDigitsAux] at hd
      | (m+1) => simp [decDigitsAux] at hd
  | succ k ih =>
      intro n d hd
      match n with
      | 0 => simp [decDigitsAux] at hd
      | (m+1) =>
          have hstep : decDigitsAux (k+1) (m+1) = (m+1) % 10 :: decDigitsAux k ((m+1) / 10) := rfl
          rw [hstep] at hd
          rcases List.mem_cons.mp hd with h | h
          · omega
          · exact ih _ _ h

theorem digitChar_ne_underscore (d : Nat) : digitChar d ≠ '_' := by
  unfold digitChar
  split <;> decide

theorem digitChar_inj_lt : ∀ d1, d1 < 10 → ∀ d2, d2 < 10 → digitChar d1 = digitChar d2 → d1 = d2 := by
  decide

theorem map_digitChar_inj : ∀ (l1 l2 : List Nat), (∀ d ∈ l1, d < 10) → (∀ d ∈ l2, d < 10) →
    l1.map digitChar = l2.map digitChar → l1 = l2 := by
  intro l1
  induction l1 with
  | nil =>
      intro l2 _ _ h
      cases l2 with
      | nil => rfl
      | cons b bs => simp at h
  | cons a l ih =>
      intro l2 h1 h2 h
      cases l2 with
      | nil => simp at h
      | cons b bs =>
          simp only [List.map_cons, List.cons.injEq] at h
          have ha : a = b := digitChar_inj_lt a (h1 a (by simp)) b (h2 b (by simp)) h.1
          have hl : l = bs := ih bs (fun d hd => h1 d (by simp [hd])) (fun d hd => h2 d (by simp [hd])) h.2
          rw [ha, hl]

theorem string_eq_of_data (s t : String) (h : s.data = t.data) : s = t := by
  cases s
  cases t
  exact congrArg String.mk h

theorem natToStr_nonzero (n : Nat) (hn : n ≠ 0) :
    natToStr n = String.mk ((decDigits n).reverse.map digitChar) := by
  simp [natToStr, hn]

theorem natToStr_inj (m n : Nat) (h : natToStr m = natToStr n) : m = n := by
  by_cases hm : m = 0 <;> by_cases hn : n = 0
  · omega
  · exfalso
    subst hm
    rw [natToStr_nonzero n hn] at h
    have hdata : [(0:Nat)].map digitChar = (decDigits n).reverse.map digitChar :=
      congrArg String.data h
    have hrev : [(0:Nat)] = (decDigits n).reverse := by
      apply map_digitChar_inj
      · intro d hd; simp at hd; omega
      · intro d hd
        exact decDigitsAux_lt10 n n d (List.mem_reverse.mp hd)
      · exact hdata
    have hval : ofDigitsRev (decDigits n) = n := decDigitsAux_ofDigits n n (le_refl n)
    have hdig : decDigits n = [0] := by
      have := congrArg List.reverse hrev
      simpa using this.symm
    rw [hdig] at hval
    have : (0:Nat) + 10 * 0 = n := hval
    omega
  · exfalso
    subst hn
    rw [natToStr_nonzero m hm] at h
    have hdata : (decDigits m).reverse.map digitChar = [(0:Nat)].map digitChar :=
      congrArg String.data h
    have hrev : (decDigits m).reverse = [(0:Nat)] := by
      apply map_digitChar_inj
      · intro d hd
        exact decDigitsAux_lt10 m m d (List.mem_reverse.mp hd)
      · intro d hd; simp at hd; omega
      · exact hdata
    have hval : ofDigitsRev (decDigits m) = m := decDigitsAux_ofDigits m m (le_refl m)
    have hdig : decDigits m = [0] := by
      have := congrArg List.reverse hrev
      simpa using this
    rw [hdig] at hval
    have : (0:Nat) + 10 * 0 = m := hval
    omega
  · rw [natToStr_nonzero m hm, natToStr_nonzero n hn] at h
    have hdata : (decDigits m).reverse.map digitChar = (decDigits n).reverse.map digitChar :=
      congrArg String.data h
    have hrev : (decDigits m).reverse = (decDigits n).reverse := by
      apply map_digitChar_inj
      · intro d hd
        exact decDigitsAux_lt10 m m d (List.mem_reverse.mp hd)
      · intro d hd
        exact decDigitsAux_lt10 n n d (List.mem_reverse.mp hd)
      · exact hdata
    have hdig : decDigits m = decDigits n := by
      have := congrArg List.reverse hrev
      simpa using this
    have hm2 : ofDigitsRev (decDigits m) = m := decDigitsAux_ofDigits m m (le_refl m)
    have hn2 : ofDigitsRev (decDigits n) = n := decDigitsAux_ofDigits n n (le_refl n)
    rw [hdig] at hm2
    omega

theorem natToStr_no_underscore (n : Nat) : ∀ c ∈ (natToStr n).data, c ≠ '_' := by
  intro c hc
  by_cases hn : n = 0
  · subst hn
    have hc0 : c ∈ ("0" : String).data := hc
    have : c = '0' := by simpa using hc0
    rw [this]; decide
  · rw [natToStr_nonzero n hn] at hc
    obtain ⟨d, _, rfl⟩ := List.mem_map.mp hc
    exact digitChar_ne_underscore d

/-! ### Fixed-width padding (model of `str.ljust`, line 129) -/

/-- Python `s.ljust(width, c)`: right-pad `s` with `c` up to `width`
(no-op when `s` is already at least `width` long). -/
def ljust (s : String) (width : Nat) (c : Char) : String :=
  s ++ String.mk (List.replicate (width - s.length) c)

theorem ljust_data (s : String) (width : Nat) (c : Char) :
    (ljust s width c).data = s.data ++ List.replicate (width - s.data.length) c := by
  show (s ++ String.mk (List.replicate (width - s.length) c)).data = _
  rw [String.data_append]
  rfl

theorem ljust_length (s : String) (width : Nat) (c : Char) (h : s.length ≤ width) :
    (ljust s width c).length = width := by
  have hd : (ljust s width c).data.length = width := by
    rw [ljust_data]
    simp only [List.length_append, List.length_replicate]
    have : s.length = s.data.length := rfl
    omega
  exact hd

theorem takeWhile_append_replicate (p : Char → Bool) (xs : List Char)
    (h : ∀ x ∈ xs, p x = true) (k : Nat) (c : Char) (hc : p c = false) :
    (xs ++ List.replicate k c).takeWhile p = xs := by
  induction xs with
  | nil =>
      cases k with
      | zero => rfl
      | succ j =>
          simp [List.replicate_succ, List.takeWhile_cons, hc]
  | cons x l ih =>
      have hx : p x = true := h x (by simp)
      simp [List.takeWhile_cons, hx, ih (fun a ha => h a (by simp [ha]))]

/-- Distinct indices give distinct padded observation ids (as long as the
unpadded ids fit in the fixed width). -/
theorem ljust_id_inj (stem : String) (i j : Nat)
    (hi : (stem ++ natToStr i).length ≤ 200) (hj : (stem ++ natToStr j).length ≤ 200)
    (heq : ljust (stem ++ natToStr i) 200 '_' = ljust (stem ++ natToStr j) 200 '_') : i = j := by
  have hdata := congrArg String.data heq
  rw [ljust_data, ljust_data] at hdata
  have hsi : (stem ++ natToStr i).data = stem.data ++ (natToStr i).data := String.data_append _ _
  have hsj : (stem ++ natToStr j).data = stem.data ++ (natToStr j).data := String.data_append _ _
  rw [hsi, hsj, List.append_assoc, List.append_assoc] at hdata
  have hcancel := List.append_cancel_left hdata
  have hpred : ∀ n : Nat, ∀ x ∈ (natToStr n).data, (x != '_') = true := by
    intro n x hx
    have := natToStr_no_underscore n x hx
    simpa using this
  have hu : (('_' : Char) != '_') = false := by decide
  have hti := takeWhile_append_replicate (fun x => x != '_') (natToStr i).data
    (hpred i) (200 - (stem.data ++ (natToStr i).data).length) '_' hu
  have htj := takeWhile_append_replicate (fun x => x != '_') (natToStr j).data
    (hpred j) (200 - (stem.data ++ (natToStr j).data).length) '_' hu
  have hfinal : (natToStr i).data = (natToStr j).data := by
    rw [← hti, ← htj, hcancel]
  exact natToStr_inj i j (string_eq_of_data _ _ hfinal)

/-! ### Misc string helpers (models of `split(' ')[0]` and `str(Timestamp)`) -/

/-- Python `s.split(' ')[0]`: the characters before the first space. -/
def datePart (s : String) : String := String.mk (s.data.takeWhile (fun c => c != ' '))

/-- Zero-pad a decimal rendering on the left to `width` characters. -/
def padZeros (width n : Nat) : String :=
  String.mk (List.replicate (width - (natToStr n).length) '0' ++ (natToStr n).data)

/-- The date part of `str(pandas.Timestamp)` for the instant `t`:
`YYYY-MM-DD` (what `str(starts2Use[t]).split(' ')[0]` yields, line 203). -/
def tsDate (t : Nat) : String :=
  padZeros 4 (civilFromDays (t / 86400)).1 ++ "-"
    ++ padZeros 2 (civilFromDays (t / 86400)).2.1 ++ "-"
    ++ padZeros 2 (civilFromDays (t / 86400)).2.2

/-! ### Closed-interval stepped ranges (model of `pd.date_range`, lines 81, 96-97) -/

/-- Work loop: instants `s, s+f, s+2f, ...` while within `e`, with fuel. -/
def sampleTimesGo (e f : Nat) : Nat → Nat → List Nat
  | 0, _ => []
  | (fuel+1), s => if s ≤ e then s :: sampleTimesGo e f fuel (s + f) else []

/-- `pd.date_range(s, e, freq=f seconds)` for a positive step `f`: all
instants from `s` to `e` inclusive, stepped by `f`. -/
def sampleTimes (s e f : Nat) : List Nat := sampleTimesGo e f (e + 1 - s) s

theorem sampleTimesGo_eq (e f : Nat) (hf : 0 < f) :
    ∀ fuel s, e + 1 - s ≤ fuel → sampleTimesGo e f fuel s =
      if s ≤ e then (List.range ((e - s) / f + 1)).map (fun i => s + f * i) else [] := by
  intro fuel
  induction fuel with
  | zero =>
      intro s hfuel
      have hs : ¬ s ≤ e := by omega
      simp [sampleTimesGo, hs]
  | succ n ih =>
      intro s hfuel
      by_cases hs : s ≤ e
      · have hstep : sampleTimesGo e f (n+1) s = s :: sampleTimesGo e f n (s + f) := by
          simp only [sampleTimesGo, if_pos hs]
        rw [hstep, ih (s + f) (by omega), if_pos hs]
        by_cases hsf : s + f ≤ e
        · rw [if_pos hsf]
          have hdiv : (e - s) / f + 1 = ((e - (s + f)) / f + 1) + 1 := by
            have h2 : f ≤ e - s := by omega
            have h3 : e - (s + f) = e - s - f := by omega
            rw [h3, ← Nat.div_eq_sub_div hf h2]
          rw [hdiv]
          conv_rhs => rw [List.range_succ_eq_map]
          rw [List.map_cons, List.map_map]
          congr 1
          refine congrArg₂ List.map ?_ rfl
          funext i
          show s + f + f * i = s + f * (i + 1)
          ring
        · rw [if_neg hsf]
          have hdiv : (e - s) / f = 0 := Nat.div_eq_of_lt (by omega)
          rw [hdiv]
          conv_rhs => rw [List.range_succ_eq_map, List.range_zero]
          simp only [List.map_nil, List.map_cons]
          show [s] = [s + f * 0]
          rw [Nat.mul_zero, Nat.add_zero]
      · simp [sampleTimesGo, hs]

theorem sampleTimes_eq (s e f : Nat) (hf : 0 < f) (hse : s ≤ e) :
    sampleTimes s e f = (List.range ((e - s) / f + 1)).map (fun i => s + f * i) := by
  rw [sampleTimes, sampleTimesGo_eq e f hf (e + 1 - s) s (le_refl _), if_pos hse]

theorem sampleTimes_nil (s e f : Nat) (h : e < s) : sampleTimes s e f = [] := by
  rw [sampleTimes, show e + 1 - s = 0 from by omega]
  rfl

theorem sampleTimes_length (s e f : Nat) (hf : 0 < f) (hse : s ≤ e) :
    (sampleTimes s e f).length = (e - s) / f + 1 := by
  rw [sampleTimes_eq s e f hf hse]
  simp

theorem sampleTimes_getElem? (s e f : Nat) (hf : 0 < f) (hse : s ≤ e)
    (i : Nat) (hi : i ≤ (e - s) / f) :
    (sampleTimes s e f)[i]? = some (s + f * i) := by
  rw [sampleTimes_eq s e f hf hse]
  rw [List.getElem?_map (fun i => s + f * i) _ i]
  rw [List.getElem?_range (by omega)]
  rfl

/-! ### Date parsing (model of `datetime.strptime(s, '%Y%m%d %H:%M:%S')`, lines 73-74) -/

/-- Value of a decimal digit character, if it is one. -/
def digitVal? (c : Char) : Option Nat :=
  if '0' ≤ c ∧ c ≤ '9' then some (c.toNat - 48) else none

/-- Value of a fixed-width all-digit character block. -/
def parseDigits? : List Char → Option Nat
  | [] => some 0
  | c :: cs =>
      match digitVal? c, parseDigits? cs with
      | some d, some rest => some (d * 10 ^ cs.length + rest)
      | _, _ => none

/-- `datetime.strptime(s, '%Y%m%d %H:%M:%S')`, returning the parsed instant
as seconds since 0001-01-01 00:00:00, or `none` on a `ValueError` (wrong
shape, or calendar-invalid field values; `datetime` requires year ≥ 1,
1 ≤ month ≤ 12, 1 ≤ day ≤ days-in-month, hour ≤ 23, minute ≤ 59,
second ≤ 59). -/
def strptime (s : String) : Option Nat :=
  match s.data with
  | [y1, y2, y3, y4, mo1, mo2, d1, d2, ' ', h1, h2, ':', mi1, mi2, ':', s1, s2] =>
      match parseDigits? [y1, y2, y3, y4], parseDigits? [mo1, mo2], parseDigits? [d1, d2],
          parseDigits? [h1, h2], parseDigits? [mi1, mi2], parseDigits? [s1, s2] with
      | some y, some mo, some d, some hh, some mi, some ss =>
          if 1 ≤ y ∧ 1 ≤ mo ∧ mo ≤ 12 ∧ 1 ≤ d ∧ d ≤ daysInMonth y mo
              ∧ hh ≤ 23 ∧ mi ≤ 59 ∧ ss ≤ 59 then
            some (86400 * daysFromCivil y mo d + 3600 * hh + 60 * mi + ss)
          else none
      | _, _, _, _, _, _ => none
  | _ => none

/-! ### The data model (the xarray Dataset of lines 140-200) -/

/-- Errors raised by the modelled Python code: `valueError` for `strptime`
parse failures and for `pd.date_range` with a zero frequency, `indexError`
for the `ends2Use[-1]` access on an empty series (line 86). -/
inductive PyError where
  | valueError : PyError
  | indexError : PyError
deriving DecidableEq

instance {ε α : Type} [DecidableEq ε] [DecidableEq α] : DecidableEq (Except ε α) := fun x y =>
  match x, y with
  | .error a, .error b =>
      if h : a = b then .isTrue (by rw [h]) else .isFalse (fun hh => h (Except.error.inj hh))
  | .ok a, .ok b =>
      if h : a = b then .isTrue (by rw [h]) else .isFalse (fun hh => h (Except.ok.inj hh))
  | .error _, .ok _ => .isFalse (fun hh => Except.noConfusion hh)
  | .ok _, .error _ => .isFalse (fun hh => Except.noConfusion hh)

/-- One per-day output dataset: the six variables assembled at lines
140-200, each a list along the `obs` dimension (rows of
`time_components` are the six calendar components, rows of `obspack_id`
are the 200-character id strings). -/
structure ObsDataSet where
  latitude : List Rat
  longitude : List Rat
  altitude : List Rat
  time_components : List (List Nat)
  obspack_id : List String
  CT_sampling_strategy : List Int
deriving DecidableEq

/-- The arguments of `make_ObsPack_Input_netcdfs`, bundled. -/
structure Args where
  sitename : String
  lat : Rat
  lon : Rat
  alt : Rat
  datestart : String
  dateend : String
  samplefreq : Int
  sample_stragety : Int
  outpath : String

/-- The sampled instants of one day segment (lines 96-97):
`pd.date_range(starts2Use[t], ends2Use[t], freq=str(samplefreq)+'s')`.
pandas yields an empty range for a negative step when start < stop; the
zero-step `ValueError` is raised by the caller before this is used. -/
def dtsOf (a : Args) (se : Nat × Nat) : List Nat :=
  if a.samplefreq < 0 then [] else sampleTimes se.1 se.2 a.samplefreq.toNat

/-- The shared id stem (lines 118-119): `sitename + '_from_' +
datestart.split(' ')[0] + '_to_' + dateend.split(' ')[0] + '_n'`, built
from the original window strings, so identical for every segment. -/
def idStem (a : Args) : String :=
  a.sitename ++ "_from_" ++ datePart a.datestart ++ "_to_" ++ datePart a.dateend ++ "_n"

/-- One segment's output file: the filename of lines 202-203 paired with
the dataset of lines 140-200.  `altitude` is filled from `lon` exactly as
line 162 does (`np.full(len(dts), lon, ...)`); `alt` is never used. -/
def buildFile (a : Args) (se : Nat × Nat) : String × ObsDataSet :=
  let dts := dtsOf a se
  let ds : ObsDataSet := {
    latitude := List.replicate dts.length a.lat
    longitude := List.replicate dts.length a.lon
    altitude := List.replicate dts.length a.lon
    time_components := dts.map toCompsRow
    obspack_id := (List.range dts.length).map (fun i => ljust (idStem a ++ natToStr i) 200 '_')
    CT_sampling_strategy := List.replicate dts.length a.sample_stragety }
  (a.outpath ++ "obspack_" ++ a.sitename ++ "_freq" ++ intToStr a.samplefreq ++ "s."
      ++ tsDate se.1 ++ ".nc", ds)

/-! ### Day segmentation (lines 73-87) -/

/-- The day segmentation of lines 75-87.  `delta = endd - start` is a
Python timedelta whose `days`/`seconds` are the floor-division and
floor-mod of the signed second count by 86400; with a positive divisor
these coincide with Lean's Euclidean `/` and `%` on `Int`.  `starts` is
the daily `pd.date_range(datestart, dateend, freq='1D')`, `starts2Use`
its first `days` entries, `ends2Use` those plus one day minus one second.
Reading `ends2Use[-1]` on an empty series raises (modelled as
`indexError`); otherwise the last end is clamped to `endd` when it
exceeds it, and the segments are the start/end pairs. -/
def segmentsOf (start endd : Nat) : Except PyError (List (Nat × Nat)) :=
  let days : Int :=
    if ((endd : Int) - (start : Int)) % 86400 ≠ 0
    then ((endd : Int) - (start : Int)) / 86400 + 1
    else ((endd : Int) - (start : Int)) / 86400
  let starts2Use := (sampleTimes start endd 86400).take days.toNat
  let ends2Use := starts2Use.map (fun t => t + 86400 - 1)
  match ends2Use.getLast? with
  | none => .error .indexError
  | some lastEnd =>
      .ok (starts2Use.zip (if endd < lastEnd then ends2Use.dropLast ++ [endd] else ends2Use))

/-- The per-segment loop of lines 93-210: for each day segment build one
file; `pd.date_range` raises a `ValueError` on a zero-second frequency
before anything is written for that segment. -/
def processSegments (a : Args) : List (Nat × Nat) → Except PyError (List (String × ObsDataSet))
  | [] => .ok []
  | se :: rest =>
      if a.samplefreq = 0 then .error .valueError
      else
        match processSegments a rest with
        | .error e => .error e
        | .ok files => .ok (buildFile a se :: files)

/-- `make_ObsPack_Input_netcdfs` (lines 12-212): parse the window bounds,
partition into day segments, and emit one (filename, dataset) pair per
segment, in order. -/
def make_ObsPack_Input_netcdfs (sitename : String) (lat lon alt : Rat)
    (datestart dateend : String) (samplefreq sample_stragety : Int)
    (outpath : String) : Except PyError (List (String × ObsDataSet)) :=
  match strptime datestart, strptime dateend with
  | some start, some endd =>
      match segmentsOf start endd with
      | .error e => .error e
      | .ok segs =>
          processSegments
            ⟨sitename, lat, lon, alt, datestart, dateend, samplefreq, sample_stragety, outpath⟩
            segs
  | _, _ => .error .valueError

theorem getLast?_map_range {α : Type} (g : Nat → α) (K : Nat) (hK : 1 ≤ K) :
    ((List.range K).map g).getLast? = some (g (K-1)) := by
  rw [show K = (K-1)+1 from by omega, List.range_succ, List.map_append]
  simp

theorem map_shift_86399 (start : Nat) (l : List Nat) :
    (l.map (fun i => start + 86400 * i)).map (fun t => t + 86400 - 1)
      = l.map (fun i => start + 86400 * i + 86399) := by
  induction l with
  | nil => simp only [List.map_nil]
  | cons a l ih =>
      simp only [List.map_cons]
      rw [ih]
      refine congrArg₂ List.cons ?_ rfl
      show start + 86400 * a + 86400 - 1 = start + 86400 * a + 86399
      omega

theorem segmentsOf_eq (start endd : Nat) (h : start < endd) :
    segmentsOf start endd = .ok (
      (List.range ((endd - start) / 86400)).map
          (fun i => (start + 86400 * i, start + 86400 * i + 86399))
        ++ (if (endd - start) % 86400 = 0 then []
            else [(start + 86400 * ((endd - start) / 86400), endd)])) := by
  have hmod : ((endd : Int) - (start : Int)) % 86400 = (((endd - start) % 86400 : Nat) : Int) := by
    omega
  have hdivI : ((endd : Int) - (start : Int)) / 86400 = (((endd - start) / 86400 : Nat) : Int) := by
    omega
  have hst : sampleTimes start endd 86400
      = (List.range ((endd - start) / 86400 + 1)).map (fun i => start + 86400 * i) :=
    sampleTimes_eq start endd 86400 (by omega) (by omega)
  simp only [segmentsOf, hmod, hdivI, hst]
  by_cases hR : (endd - start) % 86400 = 0
  · -- zero remainder: days = D ≥ 1, natural last end is endd - 1, no clamping
    have hD1 : 1 ≤ (endd - start) / 86400 := by omega
    rw [hR, if_neg (by simp), if_pos rfl, List.append_nil,
      show (((endd - start) / 86400 : Nat) : Int).toNat = (endd - start) / 86400 from by omega,
      ← List.map_take, List.take_range,
      show min ((endd - start) / 86400) ((endd - start) / 86400 + 1)
        = (endd - start) / 86400 from by omega,
      map_shift_86399, getLast?_map_range _ _ hD1]
    show Except.ok
        (((List.range ((endd - start) / 86400)).map (fun i => start + 86400 * i)).zip
          (if endd < start + 86400 * ((endd - start) / 86400 - 1) + 86399 then
            ((List.range ((endd - start) / 86400)).map
              (fun i => start + 86400 * i + 86399)).dropLast ++ [endd]
          else (List.range ((endd - start) / 86400)).map
            (fun i => start + 86400 * i + 86399))) = _
    rw [if_neg (by omega), List.zip_map']
  · -- nonzero remainder: days = D + 1, last end clamped to endd (or equal already)
    rw [if_pos (by omega),
      show ((((endd - start) / 86400 : Nat) : Int) + 1).toNat
        = (endd - start) / 86400 + 1 from by omega,
      ← List.map_take, List.take_range,
      show min ((endd - start) / 86400 + 1) ((endd - start) / 86400 + 1)
        = (endd - start) / 86400 + 1 from by omega,
      map_shift_86399, getLast?_map_range _ _ (by omega),
      show (endd - start) / 86400 + 1 - 1 = (endd - start) / 86400 from by omega,
      if_neg hR]
    show Except.ok
        (((List.range ((endd - start) / 86400 + 1)).map (fun i => start + 86400 * i)).zip
          (if endd < start + 86400 * ((endd - start) / 86400) + 86399 then
            ((List.range ((endd - start) / 86400 + 1)).map
              (fun i => start + 86400 * i + 86399)).dropLast ++ [endd]
          else (List.range ((endd - start) / 86400 + 1)).map
            (fun i => start + 86400 * i + 86399))) = _
    by_cases hc : endd < start + 86400 * ((endd - start) / 86400) + 86399
    · rw [if_pos hc, List.range_succ, List.map_append, List.map_append,
        List.map_singleton, List.map_singleton, List.dropLast_concat,
        List.zip_append (by simp), List.zip_map']
      rfl
    · rw [if_neg hc, List.zip_map', List.range_succ, List.map_append, List.map_singleton]
      congr 1
      refine congrArg₂ (fun x y : List (Nat × Nat) => x ++ y) rfl ?_
      show [(start + 86400 * ((endd - start) / 86400),
          start + 86400 * ((endd - start) / 86400) + 86399)]
        = [(start + 86400 * ((endd - start) / 86400), endd)]
      have hlast : start + 86400 * ((endd - start) / 86400) + 86399 = endd := by omega
      rw [hlast]

theorem segmentsOf_self (t : Nat) : segmentsOf t t = .error .indexError := by
  simp only [segmentsOf]
  rw [if_neg (by omega), show (((t : Int) - (t : Int)) / 86400).toNat = 0 from by omega]
  rfl

theorem segmentsOf_desc (start endd : Nat) (h : endd < start) :
    segmentsOf start endd = .error .indexError := by
  simp only [segmentsOf]
  rw [sampleTimes_nil start endd 86400 h, List.take_nil]
  rfl

theorem getD_map_range {α : Type} (f : Nat → α) (K t : Nat) (d : α) (ht : t < K) :
    ((List.range K).map f).getD t d = f t := by
  rw [List.getD_eq_getElem?_getD, List.getElem?_map, List.getElem?_range ht]
  rfl

/-- Shape of a successful day segmentation: the window is ascending, there
is one segment per (begun) day, segment `t` starts at `start + 86400 t`,
interior segments end a second before the next segment, and the final
segment ends at `endd` when the window length is not a whole number of
days, and a second before `endd` otherwise. -/
theorem segmentsOf_spec (start endd : Nat) (segs : List (Nat × Nat))
    (hok : segmentsOf start endd = .ok segs) :
    start < endd ∧
    segs.length = (if (endd - start) % 86400 = 0 then (endd - start) / 86400
                   else (endd - start) / 86400 + 1) ∧
    (∀ t, t < segs.length → (segs.getD t (0, 0)).1 = start + 86400 * t) ∧
    (∀ t, t < segs.length → (segs.getD t (0, 0)).2 =
        if (endd - start) % 86400 ≠ 0 ∧ t + 1 = segs.length then endd
        else start + 86400 * t + 86399) := by
  have hlt : start < endd := by
    rcases Nat.lt_trichotomy start endd with h | h | h
    · exact h
    · subst h
      rw [segmentsOf_self] at hok
      exact absurd hok (by simp)
    · rw [segmentsOf_desc start endd h] at hok
      exact absurd hok (by simp)
  have hsegs : segs = (List.range ((endd - start) / 86400)).map
        (fun i => (start + 86400 * i, start + 86400 * i + 86399))
      ++ (if (endd - start) % 86400 = 0 then []
          else [(start + 86400 * ((endd - start) / 86400), endd)]) := by
    rw [segmentsOf_eq start endd hlt] at hok
    exact (Except.ok.inj hok).symm
  by_cases hR : (endd - start) % 86400 = 0
  · rw [hsegs, if_pos hR, List.append_nil]
    have hlen : ((List.range ((endd - start) / 86400)).map
        (fun i => (start + 86400 * i, start + 86400 * i + 86399))).length
          = (endd - start) / 86400 := by
      simp
    rw [hlen, if_pos hR]
    refine ⟨hlt, rfl, ?_, ?_⟩
    · intro t ht
      rw [getD_map_range _ _ _ _ ht]
    · intro t ht
      rw [getD_map_range _ _ _ _ ht, if_neg (by simp [hR])]
  · rw [hsegs, if_neg hR]
    have hlen : ((List.range ((endd - start) / 86400)).map
          (fun i => (start + 86400 * i, start + 86400 * i + 86399))
        ++ [(start + 86400 * ((endd - start) / 86400), endd)]).length
          = (endd - start) / 86400 + 1 := by
      simp
    rw [hlen, if_neg hR]
    refine ⟨hlt, rfl, ?_, ?_⟩
    · intro t ht
      rcases Nat.lt_or_ge t ((endd - start) / 86400) with h1 | h1
      · rw [List.getD_eq_getElem?_getD, List.getElem?_append, if_pos (by simpa using h1),
          List.getElem?_map, List.getElem?_range h1]
        rfl
      · have ht' : t = (endd - start) / 86400 := by omega
        subst ht'
        rw [List.getD_eq_getElem?_getD, List.getElem?_append_right (by simp),
          show (endd - start) / 86400 - ((List.range ((endd - start) / 86400)).map
            (fun i => (start + 86400 * i, start + 86400 * i + 86399))).length = 0 from by simp]
        rfl
    · intro t ht
      rcases Nat.lt_or_ge t ((endd - start) / 86400) with h1 | h1
      · rw [List.getD_eq_getElem?_getD, List.getElem?_append, if_pos (by simpa using h1),
          List.getElem?_map, List.getElem?_range h1, if_neg (by omega)]
        rfl
      · have ht' : t = (endd - start) / 86400 := by omega
        subst ht'
        rw [List.getD_eq_getElem?_getD, List.getElem?_append_right (by simp),
          show (endd - start) / 86400 - ((List.range ((endd - start) / 86400)).map
            (fun i => (start + 86400 * i, start + 86400 * i + 86399))).length = 0 from by simp,
          if_pos ⟨hR, by omega⟩]
        rfl

/-- With a nonzero frequency the per-segment loop cannot fail: it produces
exactly one file per segment, in order. -/
theorem processSegments_eq (a : Args) (hf : a.samplefreq ≠ 0) :
    ∀ l : List (Nat × Nat), processSegments a l = .ok (l.map (buildFile a)) := by
  intro l
  induction l with
  | nil => rfl
  | cons se rest ih =>
      simp only [processSegments, if_neg hf, ih, List.map_cons]

theorem processSegments_ok_mem (a : Args) :
    ∀ (l : List (Nat × Nat)) (out : List (String × ObsDataSet)),
      processSegments a l = .ok out → ∀ fl ∈ out, ∃ se ∈ l, fl = buildFile a se := by
  intro l
  induction l with
  | nil =>
      intro out hout fl hfl
      have : out = [] := by
        simpa [processSegments] using hout.symm
      subst this
      simp at hfl
  | cons se rest ih =>
      intro out hout fl hfl
      by_cases hf : a.samplefreq = 0
      · simp [processSegments, hf] at hout
      · simp only [processSegments, if_neg hf] at hout
        cases hrest : processSegments a rest with
        | error e => rw [hrest] at hout; exact absurd hout (by simp)
        | ok files =>
            rw [hrest] at hout
            have hout' : buildFile a se :: files = out := by
              simpa using hout
            rw [← hout'] at hfl
            rcases List.mem_cons.mp hfl with h | h
            · exact ⟨se, by simp, h⟩
            · obtain ⟨se', hse', hfl'⟩ := ih files hrest fl h
              exact ⟨se', by simp [hse'], hfl'⟩

/-- Unfolding equation for a run whose window bounds both parse. -/
theorem make_eq_of_parse (sitename : String) (lat lon alt : Rat) (datestart dateend : String)
    (samplefreq sample_stragety : Int) (outpath : String) (start endd : Nat)
    (hds : strptime datestart = some start) (hde : strptime dateend = some endd) :
    make_ObsPack_Input_netcdfs sitename lat lon alt datestart dateend
        samplefreq sample_stragety outpath =
      match segmentsOf start endd with
      | .error e => .error e
      | .ok segs => processSegments
          ⟨sitename, lat, lon, alt, datestart, dateend, samplefreq, sample_stragety, outpath⟩
          segs := by
  unfold make_ObsPack_Input_netcdfs
  rw [hds, hde]

/-- Inversion for a successful run: every produced file is the build of
some day segment with the given arguments. -/
theorem make_ok_mem (sitename : String) (lat lon alt : Rat) (datestart dateend : String)
    (samplefreq sample_stragety : Int) (outpath : String)
    (files : List (String × ObsDataSet)) (fl : String × ObsDataSet)
    (hok : make_ObsPack_Input_netcdfs sitename lat lon alt datestart dateend
      samplefreq sample_stragety outpath = .ok files)
    (hfl : fl ∈ files) :
    ∃ se, fl = buildFile
      ⟨sitename, lat, lon, alt, datestart, dateend, samplefreq, sample_stragety, outpath⟩ se := by
  cases hds : strptime datestart with
  | none =>
      unfold make_ObsPack_Input_netcdfs at hok
      rw [hds] at hok
      exact absurd hok (by simp)
  | some start =>
      cases hde : strptime dateend with
      | none =>
          unfold make_ObsPack_Input_netcdfs at hok
          rw [hds, hde] at hok
          exact absurd hok (by simp)
      | some endd =>
          rw [make_eq_of_parse sitename lat lon alt datestart dateend
            samplefreq sample_stragety outpath start endd hds hde] at hok
          cases hseg : segmentsOf start endd with
          | error e =>
              rw [hseg] at hok
              simp at hok
          | ok segs =>
              rw [hseg] at hok
              obtain ⟨se, _, hfl'⟩ := processSegments_ok_mem _ segs files hok fl hfl
              exact ⟨se, hfl'⟩

theorem buildFile_latitude (a : Args) (se : Nat × Nat) :
    (buildFile a se).2.latitude = List.replicate (dtsOf a se).length a.lat := rfl

theorem buildFile_longitude (a : Args) (se : Nat × Nat) :
    (buildFile a se).2.longitude = List.replicate (dtsOf a se).length a.lon := rfl

theorem buildFile_altitude (a : Args) (se : Nat × Nat) :
    (buildFile a se).2.altitude = List.replicate (dtsOf a se).length a.lon := rfl

theorem buildFile_time_components (a : Args) (se : Nat × Nat) :
    (buildFile a se).2.time_components = (dtsOf a se).map toCompsRow := rfl

theorem buildFile_obspack_id (a : Args) (se : Nat × Nat) :
    (buildFile a se).2.obspack_id
      = (List.range (dtsOf a se).length).map
          (fun i => ljust (idStem a ++ natToStr i) 200 '_') := rfl

theorem buildFile_strategy (a : Args) (se : Nat × Nat) :
    (buildFile a se).2.CT_sampling_strategy
      = List.replicate (dtsOf a se).length a.sample_stragety := rfl

theorem dtsOf_pos (a : Args) (se : Nat × Nat) (hf : 0 < a.samplefreq) :
    dtsOf a se = sampleTimes se.1 se.2 a.samplefreq.toNat := by
  simp only [dtsOf]
  rw [if_neg (by omega)]

/-- An empty dataset value, used as a default in concrete instantiations. -/
def emptyDs : ObsDataSet := ⟨[], [], [], [], [], []⟩

/-- The instant `2013-06-01 00:00:00` of the worked example. -/
def exT1 : Nat := (strptime "20130601 00:00:00").getD 0

/-- The instant `2013-06-03 00:00:00` (a two-whole-day window end). -/
def exT3 : Nat := (strptime "20130603 00:00:00").getD 0

/-- The day segments of the two-whole-day window `exT1 .. exT3`. -/
def exSegs2 : List (Nat × Nat) := (segmentsOf exT1 exT3).toOption.getD []

/-- The example arguments with a one-hour window (two hourly records). -/
def exArgs : Args :=
  ⟨"SOAS-Ground", 32.903281, -87.249942, 125,
    "20130601 00:00:00", "20130601 01:00:00", 3600, 2, ""⟩

/-- The files of the one-hour example run. -/
def exFiles : List (String × ObsDataSet) :=
  (make_ObsPack_Input_netcdfs "SOAS-Ground" 32.903281 (-87.249942) 125
    "20130601 00:00:00" "20130601 01:00:00" 3600 2 "").toOption.getD []

/-- The first file of the one-hour example run. -/
def exFile : String × ObsDataSet := exFiles.headD ("", emptyDs)

/-- The first day segment of the one-hour example run. -/
def exSeg : Nat × Nat :=
  ((segmentsOf exT1 ((strptime "20130601 01:00:00").getD 0)).toOption.getD []).getD 0 (0, 0)

/-! ### Claim C1: the worked example -/

/-- Counterexample to claim C1 as stated: on the example window
`"20130601 00:00:00" .. "20130602 00:00:00"` the program does NOT produce
two files.  The window is exactly one whole day, so `delta.seconds == 0`,
`days = delta.days = 1`, and a single day segment (hence a single file) is
produced. -/
theorem example_window_not_two_files :
    ¬ ((make_ObsPack_Input_netcdfs "SOAS-Ground" 32.903281 (-87.249942) 125
          "20130601 00:00:00" "20130602 00:00:00" 3600 2 "").map List.length
        = Except.ok 2) := by
  decide

/-- Claim C1 (amended): the example run produces exactly ONE file, named
`obspack_SOAS-Ground_freq3600s.2013-06-01.nc`, holding the 24 hourly
records `2013-06-01 00:00:00 .. 23:00:00`. -/
theorem example_window_single_file :
    (make_ObsPack_Input_netcdfs "SOAS-Ground" 32.903281 (-87.249942) 125
        "20130601 00:00:00" "20130602 00:00:00" 3600 2 "").map
      (fun files => (files.map Prod.fst, files.map (fun fl => fl.2.time_components)))
    = Except.ok (["obspack_SOAS-Ground_freq3600s.2013-06-01.nc"],
        [(List.range 24).map (fun h => [2013, 6, 1, h, 0, 0])]) := by
  decide

/-! ### Claim C2: a window with `end == start` -/

/-- Claim C2 (amended): when the end of the window equals its start the day
count is `0`, `starts[:days]` is empty, and the clamp `ends2Use[-1]`
raises `IndexError` — no segment and no file is produced. -/
theorem equal_window_index_error (sitename : String) (lat lon alt : Rat)
    (datestart dateend : String) (samplefreq sample_stragety : Int) (outpath : String)
    (t : Nat) (hds : strptime datestart = some t) (hde : strptime dateend = some t) :
    make_ObsPack_Input_netcdfs sitename lat lon alt datestart dateend samplefreq
      sample_stragety outpath = .error .indexError := by
  rw [make_eq_of_parse sitename lat lon alt datestart dateend samplefreq sample_stragety
    outpath t t hds hde, segmentsOf_self]

theorem equal_window_index_error_witness :
    make_ObsPack_Input_netcdfs "SOAS-Ground" 32.903281 (-87.249942) 125
      "20130601 00:00:00" "20130601 00:00:00" 3600 2 "" = .error .indexError :=
  equal_window_index_error "SOAS-Ground" 32.903281 (-87.249942) 125
    "20130601 00:00:00" "20130601 00:00:00" 3600 2 ""
    ((strptime "20130601 00:00:00").getD 0) rfl rfl

/-- Counterexample to claim C2 as stated: with `end == start` the run does
not return one single-instant file: it fails with `IndexError`. -/
theorem equal_window_not_single_file :
    ¬ ((make_ObsPack_Input_netcdfs "SOAS-Ground" 32.903281 (-87.249942) 125
          "20130601 00:00:00" "20130601 00:00:00" 3600 2 "").map List.length
        = Except.ok 1) := by
  decide

/-! ### Claim C7: non-positive sampling frequency -/

/-- Claim C7 is refuted by the code: a negative `samplefreq` is NOT
rejected with a configuration error.  `pd.date_range` with a negative
frequency yields an empty range, and the program happily writes one output
file per day segment with ZERO records in it. -/
theorem negative_freq_writes_empty_file :
    make_ObsPack_Input_netcdfs "SOAS-Ground" 32.903281 (-87.249942) 125
      "20130601 00:00:00" "20130602 00:00:00" (-3600) 2 ""
    = Except.ok [("obspack_SOAS-Ground_freq-3600s.2013-06-01.nc",
        ⟨[], [], [], [], [], []⟩)] := by
  decide

/-! ### Claim C3: altitude is filled from the longitude argument -/

/-- Claim C3: in every file of a successful run, every entry of the
`altitude` array equals the `lon` argument (line 162 passes `lon`, not
`alt`, to `np.full`). -/
theorem altitude_filled_from_longitude (sitename : String) (lat lon alt : Rat)
    (datestart dateend : String) (samplefreq sample_stragety : Int) (outpath : String)
    (files : List (String × ObsDataSet)) (fl : String × ObsDataSet) (i : Nat)
    (hok : make_ObsPack_Input_netcdfs sitename lat lon alt datestart dateend
      samplefreq sample_stragety outpath = .ok files)
    (hfl : fl ∈ files) (hi : i < fl.2.altitude.length) :
    fl.2.altitude.getD i 0 = lon := by
  obtain ⟨se, rfl⟩ := make_ok_mem sitename lat lon alt datestart dateend
    samplefreq sample_stragety outpath files fl hok hfl
  rw [buildFile_altitude] at hi ⊢
  rw [List.length_replicate] at hi
  rw [List.getD_eq_getElem?_getD, List.getElem?_replicate, if_pos hi]
  rfl

theorem altitude_filled_from_longitude_witness :
    (buildFile exArgs exSeg).2.altitude.getD 0 0 = -87.249942 :=
  altitude_filled_from_longitude "SOAS-Ground" 32.903281 (-87.249942) 125
    "20130601 00:00:00" "20130601 01:00:00" 3600 2 "" [buildFile exArgs exSeg]
    (buildFile exArgs exSeg) 0 rfl (List.mem_singleton.mpr rfl) (by decide)

/-! ### Claim C4: the identifier format -/

/-- Counterexample to claim C4 as stated: the id stem is not
`sitename + "_from_" + start_date + "_to_" + end_date`; the code appends a
further `"_n"` before the record counter (line 119), so the claimed format
does not match even the first record of the example run. -/
theorem obspack_id_without_n_refuted :
    ¬ (exFile.2.obspack_id.getD 0 ""
        = ljust ("SOAS-Ground" ++ "_from_" ++ datePart "20130601 00:00:00"
            ++ "_to_" ++ datePart "20130601 01:00:00" ++ natToStr 0) 200 '_') := by
  decide

/-- Claim C4 (amended): in every file of a successful run the `i`-th
identifier equals `sitename + "_from_" + start_date + "_to_" + end_date +
"_n" + str(i)` right-padded with underscores to 200 characters, the dates
being the date parts of the original window strings (identical for every
segment). -/
theorem obspack_id_format (sitename : String) (lat lon alt : Rat)
    (datestart dateend : String) (samplefreq sample_stragety : Int) (outpath : String)
    (files : List (String × ObsDataSet)) (fl : String × ObsDataSet) (i : Nat)
    (hok : make_ObsPack_Input_netcdfs sitename lat lon alt datestart dateend
      samplefreq sample_stragety outpath = .ok files)
    (hfl : fl ∈ files) (hi : i < fl.2.obspack_id.length) :
    fl.2.obspack_id.getD i ""
      = ljust (sitename ++ "_from_" ++ datePart datestart ++ "_to_" ++ datePart dateend
          ++ "_n" ++ natToStr i) 200 '_' := by
  obtain ⟨se, rfl⟩ := make_ok_mem sitename lat lon alt datestart dateend
    samplefreq sample_stragety outpath files fl hok hfl
  rw [buildFile_obspack_id] at hi ⊢
  rw [List.length_map, List.length_range] at hi
  rw [getD_map_range _ _ _ _ hi]
  rfl

theorem obspack_id_format_witness :
    (buildFile exArgs exSeg).2.obspack_id.getD 1 ""
      = ljust ("SOAS-Ground" ++ "_from_" ++ datePart "20130601 00:00:00"
          ++ "_to_" ++ datePart "20130601 01:00:00" ++ "_n" ++ natToStr 1) 200 '_' :=
  obspack_id_format "SOAS-Ground" 32.903281 (-87.249942) 125
    "20130601 00:00:00" "20130601 01:00:00" 3600 2 "" [buildFile exArgs exSeg]
    (buildFile exArgs exSeg) 1 rfl (List.mem_singleton.mpr rfl) (by decide)

/-! ### Claim C10: all six dataset variables are parallel -/

/-- Claim C10: in the dataset built for any segment, the six per-record
arrays all have the same length, the number of sampled instants. -/
theorem dataset_arrays_parallel (a : Args) (se : Nat × Nat) :
    (buildFile a se).2.latitude.length = (dtsOf a se).length ∧
    (buildFile a se).2.longitude.length = (dtsOf a se).length ∧
    (buildFile a se).2.altitude.length = (dtsOf a se).length ∧
    (buildFile a se).2.time_components.length = (dtsOf a se).length ∧
    (buildFile a se).2.obspack_id.length = (dtsOf a se).length ∧
    (buildFile a se).2.CT_sampling_strategy.length = (dtsOf a se).length := by
  refine ⟨?_, ?_, ?_, ?_, ?_, ?_⟩ <;>
    simp [buildFile_latitude, buildFile_longitude, buildFile_altitude,
      buildFile_time_components, buildFile_obspack_id, buildFile_strategy]

/-! ### Claim C5: identifiers are distinct and 200 characters long -/

/-- Claim C5: provided every `stem + str(j)` fits within 200 characters,
the identifier strings within one file are pairwise distinct and each is
exactly 200 characters long. -/
theorem obspack_id_unique_and_fixed_length (sitename : String) (lat lon alt : Rat)
    (datestart dateend : String) (samplefreq sample_stragety : Int) (outpath : String)
    (files : List (String × ObsDataSet)) (fl : String × ObsDataSet)
    (hok : make_ObsPack_Input_netcdfs sitename lat lon alt datestart dateend
      samplefreq sample_stragety outpath = .ok files)
    (hfl : fl ∈ files)
    (hfit : ∀ j, j < fl.2.obspack_id.length →
      (sitename ++ "_from_" ++ datePart datestart ++ "_to_" ++ datePart dateend
        ++ "_n" ++ natToStr j).length ≤ 200) :
    fl.2.obspack_id.Nodup ∧ ∀ s ∈ fl.2.obspack_id, s.length = 200 := by
  obtain ⟨se, rfl⟩ := make_ok_mem sitename lat lon alt datestart dateend
    samplefreq sample_stragety outpath files fl hok hfl
  rw [buildFile_obspack_id] at hfit ⊢
  rw [List.length_map, List.length_range] at hfit
  constructor
  · refine List.Nodup.map_on ?_ (List.nodup_range _)
    intro x hx y hy hxy
    exact ljust_id_inj _ x y (hfit x (List.mem_range.mp hx))
      (hfit y (List.mem_range.mp hy)) hxy
  · intro s hs
    obtain ⟨j, hj, rfl⟩ := List.mem_map.mp hs
    exact ljust_length _ _ _ (hfit j (List.mem_range.mp hj))

theorem obspack_id_unique_and_fixed_length_witness :
    (buildFile exArgs exSeg).2.obspack_id.Nodup ∧
      ∀ s ∈ (buildFile exArgs exSeg).2.obspack_id, s.length = 200 :=
  obspack_id_unique_and_fixed_length "SOAS-Ground" 32.903281 (-87.249942) 125
    "20130601 00:00:00" "20130601 01:00:00" 3600 2 "" [buildFile exArgs exSeg]
    (buildFile exArgs exSeg) rfl (List.mem_singleton.mpr rfl) (by decide)

/-! ### Claim C6: record count per segment -/

/-- Claim C6: for any day segment of a successful segmentation and any
positive sampling frequency, the file built for that segment holds
`floor((segEnd - segStart) / freq) + 1` records. -/
theorem record_count_formula (a : Args) (start endd : Nat)
    (segs : List (Nat × Nat)) (se : Nat × Nat)
    (h3 : segmentsOf start endd = .ok segs) (hse : se ∈ segs)
    (hf : 0 < a.samplefreq) :
    (buildFile a se).2.time_components.length
      = (se.2 - se.1) / a.samplefreq.toNat + 1 := by
  obtain ⟨hlt, hlen, hfst, hsnd⟩ := segmentsOf_spec start endd segs h3
  obtain ⟨t, ht, hget⟩ := List.getElem_of_mem hse
  have hgetD : segs.getD t (0, 0) = se := by
    rw [List.getD_eq_getElem?_getD, List.getElem?_eq_getElem ht, hget]
    rfl
  have hf1 := hfst t ht
  have hf2 := hsnd t ht
  rw [hgetD] at hf1 hf2
  have hse12 : se.1 ≤ se.2 := by
    by_cases hR : (endd - start) % 86400 = 0
    · rw [if_neg (fun hc => hc.1 hR)] at hf2
      omega
    · rw [if_neg hR] at hlen
      by_cases hT : t + 1 = segs.length
      · rw [if_pos ⟨hR, hT⟩] at hf2
        omega
      · rw [if_neg (fun hc => hT hc.2)] at hf2
        omega
  rw [buildFile_time_components, List.length_map, dtsOf_pos a se hf]
  exact sampleTimes_length se.1 se.2 a.samplefreq.toNat (by omega) hse12

theorem record_count_formula_witness :
    (buildFile exArgs exSeg).2.time_components.length
      = (exSeg.2 - exSeg.1) / exArgs.samplefreq.toNat + 1 :=
  record_count_formula exArgs exT1 ((strptime "20130601 01:00:00").getD 0)
    ((segmentsOf exT1 ((strptime "20130601 01:00:00").getD 0)).toOption.getD [])
    exSeg rfl (by decide) (by decide)

/-! ### Claim C9: time components round-trip -/

/-- Claim C9: for every record of the file built for any segment,
recomposing the six time-component columns (year, month, day, hour,
minute, second) reproduces the sampled instant exactly. -/
theorem time_components_roundtrip (a : Args) (se : Nat × Nat) (i : Nat)
    (hi : i < (buildFile a se).2.time_components.length) :
    recomposeRow ((buildFile a se).2.time_components.getD i [])
      = (dtsOf a se).getD i 0 := by
  rw [buildFile_time_components] at hi ⊢
  rw [List.length_map] at hi
  rw [List.getD_eq_getElem?_getD, List.getElem?_map, List.getElem?_eq_getElem hi]
  show recomposeRow (toCompsRow (dtsOf a se)[i]) = (dtsOf a se).getD i 0
  rw [recomposeRow_toCompsRow, List.getD_eq_getElem?_getD, List.getElem?_eq_getElem hi]
  rfl

theorem time_components_roundtrip_witness :
    recomposeRow ((buildFile exArgs exSeg).2.time_components.getD 0 [])
      = (dtsOf exArgs exSeg).getD 0 0 :=
  time_components_roundtrip exArgs exSeg 0 (by decide)

/-! ### Claim C8: segments are contiguous, disjoint and cover the window -/

/-- Counterexample to claim C8 as stated: the two-whole-day window
`exT1 .. exT3` yields two (contiguous, disjoint) segments, but the window
end `exT3` itself lies in neither of them, so the segments do not tile the
closed window `[start, end]`. -/
theorem segments_do_not_cover_end :
    2 ≤ exSegs2.length ∧ ¬ ∃ p ∈ exSegs2, p.1 ≤ exT3 ∧ exT3 ≤ p.2 := by
  decide

/-- Claim C8 (amended): for a successful segmentation with at least two
segments, adjacent segments are contiguous (end + 1 second = next start),
distinct segments never share an instant, and together the segments cover
exactly `[start, end]` when the window is not a whole number of days, and
`[start, end - 1]` (the end instant excluded) otherwise. -/
theorem segments_contiguous_cover (start endd : Nat) (segs : List (Nat × Nat))
    (hok : segmentsOf start endd = .ok segs) (h2 : 2 ≤ segs.length) :
    (∀ t, t + 1 < segs.length →
        (segs.getD t (0, 0)).2 + 1 = (segs.getD (t + 1) (0, 0)).1)
  ∧ (∀ t u, t < segs.length → u < segs.length → t ≠ u → ∀ x : Nat,
        ¬ ((segs.getD t (0, 0)).1 ≤ x ∧ x ≤ (segs.getD t (0, 0)).2 ∧
           (segs.getD u (0, 0)).1 ≤ x ∧ x ≤ (segs.getD u (0, 0)).2))
  ∧ (∀ x : Nat,
        (start ≤ x ∧ x ≤ (if (endd - start) % 86400 = 0 then endd - 1 else endd))
          ↔ ∃ t, t < segs.length ∧
              (segs.getD t (0, 0)).1 ≤ x ∧ x ≤ (segs.getD t (0, 0)).2) := by
  obtain ⟨hlt, hlen, hfst, hsnd⟩ := segmentsOf_spec start endd segs hok
  refine ⟨?_, ?_, ?_⟩
  · intro t ht
    rw [hfst (t + 1) (by omega), hsnd t (by omega),
      if_neg (show ¬ ((endd - start) % 86400 ≠ 0 ∧ t + 1 = segs.length) from
        fun hc => absurd hc.2 (by omega))]
    omega
  · intro t u ht hu htu x hx
    obtain ⟨hx1, hx2, hx3, hx4⟩ := hx
    rw [hfst t ht] at hx1
    rw [hfst u hu] at hx3
    rw [hsnd t ht] at hx2
    rw [hsnd u hu] at hx4
    by_cases hR : (endd - start) % 86400 = 0
    · rw [if_neg (fun hc => hc.1 hR)] at hx2 hx4
      omega
    · rw [if_neg hR] at hlen
      by_cases hT : t + 1 = segs.length
      · rw [if_pos ⟨hR, hT⟩] at hx2
        by_cases hU : u + 1 = segs.length
        · omega
        · rw [if_neg (fun hc => hU hc.2)] at hx4
          omega
      · rw [if_neg (fun hc => hT hc.2)] at hx2
        by_cases hU : u + 1 = segs.length
        · rw [if_pos ⟨hR, hU⟩] at hx4
          omega
        · rw [if_neg (fun hc => hU hc.2)] at hx4
          omega
  · intro x
    by_cases hR : (endd - start) % 86400 = 0
    · rw [if_pos hR] at hlen
      rw [if_pos hR]
      constructor
      · rintro ⟨ha, hb⟩
        refine ⟨(x - start) / 86400, by omega, ?_, ?_⟩
        · rw [hfst ((x - start) / 86400) (by omega)]
          omega
        · rw [hsnd ((x - start) / 86400) (by omega), if_neg (fun hc => hc.1 hR)]
          omega
      · rintro ⟨t, ht, hb1, hb2⟩
        rw [hfst t ht] at hb1
        rw [hsnd t ht, if_neg (fun hc => hc.1 hR)] at hb2
        omega
    · rw [if_neg hR] at hlen
      rw [if_neg hR]
      constructor
      · rintro ⟨ha, hb⟩
        by_cases hlast : start + 86400 * ((endd - start) / 86400) ≤ x
        · refine ⟨(endd - start) / 86400, by omega, ?_, ?_⟩
          · rw [hfst ((endd - start) / 86400) (by omega)]
            omega
          · rw [hsnd ((endd - start) / 86400) (by omega), if_pos ⟨hR, by omega⟩]
            omega
        · refine ⟨(x - start) / 86400, by omega, ?_, ?_⟩
          · rw [hfst ((x - start) / 86400) (by omega)]
            omega
          · rw [hsnd ((x - start) / 86400) (by omega), if_neg ?_]
            · omega
            · intro hc
              obtain ⟨-, hc2⟩ := hc
              omega
      · rintro ⟨t, ht, hb1, hb2⟩
        rw [hfst t ht] at hb1
        by_cases hT : t + 1 = segs.length
        · rw [hsnd t ht, if_pos ⟨hR, hT⟩] at hb2
          omega
        · rw [hsnd t ht, if_neg (fun hc => hT hc.2)] at hb2
          omega

theorem segments_contiguous_cover_witness :
    (exSegs2.getD 0 (0, 0)).2 + 1 = (exSegs2.getD 1 (0, 0)).1 :=
  (segments_contiguous_cover exT1 exT3 exSegs2 rfl (by decide)).1 0 (by decide)
